import Mathlib

/-!
Verification of the Global-CapFlow top-100 ranking pipeline
(`backend/app/services/collection_service.py`).

The Python code is shallowly embedded as executable Lean definitions:

* Raw ticker symbols are sequences of character codes (`List Nat`), so the
  character-level string operations of the normalizer (`str.upper`,
  `str.strip`, `str.split`, membership of `"."`) are modelled exactly for
  the ASCII range that tickers occupy.
* Optional values (`None`) are `Option`; Python truthiness (`x or y`,
  `if x:`), which also treats `""` and `0` as false, is modelled by
  dedicated helpers (`pyStrOr`, `pyOptStrOr`, `pyOptNumOr`).
* Market values are rationals; the code only forms products and
  reciprocals that it stores verbatim, so no rounding model is needed.
* Network providers (yfinance fast path / detailed path, FX quotes,
  logo lookups) are abstracted as deterministic functions supplied as a
  `Provider` record; a raised exception is an `Except.error`.
-/

namespace CapFlow

/-- ASCII uppercase of one code point: Python `str.upper` restricted to the
ASCII letters that ticker symbols use (`a`..`z` are codes 97..122). -/
def pyUpperChar (c : Nat) : Nat :=
  if 97 ≤ c ∧ c ≤ 122 then c - 32 else c

/-- `str.upper` on a symbol, code-point-wise. -/
def pyUpper (s : List Nat) : List Nat := s.map pyUpperChar

/-- ASCII whitespace, the characters `str.strip` / `str.split` treat as
separators (space, tab, LF, VT, FF, CR). -/
def isSpaceChar (c : Nat) : Bool :=
  c = 32 || c = 9 || c = 10 || c = 11 || c = 12 || c = 13

/-- Python `str.strip()`: drop leading and trailing whitespace. -/
def pyStrip (s : List Nat) : List Nat :=
  ((s.dropWhile isSpaceChar).reverse.dropWhile isSpaceChar).reverse

/-- First whitespace-separated token, i.e. Python `s.split()[0]` for a
string that contains at least one non-whitespace character. -/
def firstTokenPy (s : List Nat) : List Nat :=
  (s.dropWhile isSpaceChar).takeWhile (fun c => !(isSpaceChar c))

/-- Python `str.isdigit()` for ASCII digits: non-empty and all digits. -/
def pyIsDigit (s : List Nat) : Bool :=
  !(s.isEmpty) && s.all (fun c => 48 ≤ c && c ≤ 57)

/-- `COUNTRY_SUFFIX_MAP` as an association list: per-country Yahoo-Finance
ticker suffix, with the suffix spelled as character codes
(`[46, 76]` is `".L"`, `[46, 84]` is `".T"`, `[46, 83, 83]` is `".SS"`,
`[46, 68, 69]` is `".DE"`, `[46, 80, 65]` is `".PA"`, `[46, 72, 75]` is
`".HK"`, `[46, 84, 79]` is `".TO"`, `[46, 65, 88]` is `".AX"`,
`[46, 84, 87]` is `".TW"`, `[46, 75, 83]` is `".KS"`, `[46, 78, 83]` is
`".NS"`). -/
def countrySuffixList : List (String × List Nat) :=
  [("United Kingdom", [46, 76]), ("Japan", [46, 84]), ("China", [46, 83, 83]),
   ("Germany", [46, 68, 69]), ("France", [46, 80, 65]), ("Hong Kong", [46, 72, 75]),
   ("Canada", [46, 84, 79]), ("Australia", [46, 65, 88]), ("Taiwan", [46, 84, 87]),
   ("South Korea", [46, 75, 83]), ("India", [46, 78, 83])]

/-- `COUNTRY_SUFFIX_MAP.get(country)`: dictionary lookup. -/
def countrySuffixMap (country : String) : Option (List Nat) :=
  (countrySuffixList.find? (fun p => p.1 = country)).map Prod.snd

/-- `_apply_country_suffix(ticker, country)`: uppercase the ticker, return
it unchanged if it already contains `"."` (code 46); for China route
6-digit codes by leading digit (`0`/`3` are codes 48/51 → `".SZ"`,
`6`/`9` are codes 54/57 → `".SS"`), otherwise fall back to the country
suffix map keyed by `country or ""`. -/
def applyCountrySuffix (ticker : List Nat) (country : Option String) : List Nat :=
  if ticker = [] then ticker
  else
    let t := pyUpper ticker
    if 46 ∈ t then t
    else if country = some "China" then
      if pyIsDigit t = true ∧ t.length = 6 then
        if t.head? = some 48 ∨ t.head? = some 51 then t ++ [46, 83, 90]
        else if t.head? = some 54 ∨ t.head? = some 57 then t ++ [46, 83, 83]
        else
          match countrySuffixMap "China" with
          | some s => t ++ s
          | none => t
      else
        match countrySuffixMap "China" with
        | some s => t ++ s
        | none => t
    else
      match countrySuffixMap ((country.getD "")) with
      | some s => t ++ s
      | none => t

/-- The cleanup `_process_row` performs before normalizing: strip, upper,
take the first whitespace token, remove `"("`/`")"` (codes 40/41). -/
def cleanedSymbol (v : List Nat) : List Nat :=
  let s0 := pyUpper (pyStrip v)
  let s1 := if s0 = [] then [] else firstTokenPy s0
  s1.filter (fun c => !(c = 40 || c = 41))

/-- `_process_row`'s per-candidate normalization: `none` models a dropped
candidate (a `pd.isna` value, or an empty string after cleanup); `some n`
models the normalized ticker entered into the harvest map. -/
def processRow (tickerValue : Option (List Nat)) (rowCountry : Option String) :
    Option (List Nat) :=
  match tickerValue with
  | none => none
  | some v =>
    let s := cleanedSymbol v
    if s = [] then none
    else
      let n := applyCountrySuffix s rowCountry
      if n = [] then none else some n


/-!
## Market snapshot fetcher (`fetch_top_100_data` and helpers)

Python truthiness on optional strings and numbers (`x or y`, `if x:`)
treats `None`, `""` and `0` as false; the helpers below model this.
-/

/-- Python `a or b` where `a` is an optional string and `b` a string:
the first truthy value (`None` and `""` are falsy). -/
def pyStrOr (a : Option String) (b : String) : String :=
  match a with
  | some s => if s = "" then b else s
  | none => b

/-- Python `a or b` where `a` is a plain string (`""` is falsy). -/
def pyStrOrS (a b : String) : String :=
  if a = "" then b else a

/-- Python `a or b` on two optional strings. -/
def pyOptStrOr (a b : Option String) : Option String :=
  match a with
  | some s => if s = "" then b else some s
  | none => b

/-- Python `a or b` on two optional numbers (`0` is falsy). -/
def pyOptNumOr (a b : Option ℚ) : Option ℚ :=
  match a with
  | some x => if x = 0 then b else some x
  | none => b

/-- Python `str.upper()` on a Lean `String` (ASCII case mapping, which is
all `Char.toUpper` performs and all that currency codes need). -/
def pyUpperStr (s : String) : String :=
  ⟨s.data.map Char.toUpper⟩

/-- The fields `_fetch_single_ticker_yf` reads from `yf.Ticker(t).info`.
A provider exception or empty `info` dict is the all-`none` record. -/
structure YfInfo where
  marketCap : Option ℚ
  currentPrice : Option ℚ
  regularMarketPrice : Option ℚ
  longName : Option String
  shortName : Option String
  sector : Option String
  industry : Option String
  currency : Option String
  volume : Option ℚ
deriving DecidableEq

/-- `yf.Ticker(t).info` when the call raised or returned nothing
(`info = t.info or ` the empty dict, every `.get` returning `None`). -/
def emptyYfInfo : YfInfo :=
  ⟨none, none, none, none, none, none, none, none, none⟩

/-- The fields `_fetch_fast_marketcap` reads from `yf.Ticker(t).fast_info`. -/
structure FastInfo where
  market_cap : Option ℚ
  last_price : Option ℚ
  currency : Option String
  last_volume : Option ℚ
deriving DecidableEq

/-- A market snapshot item: the dict built per ticker by the fetcher.
`country` is `some c` exactly when the post-selection country mapping put
the (truthy) key `"country"` into the dict. `logo_url` distinguishes the
key being absent (`none`) from present-with-`None` (`some none`): the
logo step writes the key for every selected item, possibly with `None`. -/
structure Item where
  ticker : String
  name : String
  sector : Option String
  industry : Option String
  currency : Option String
  market_cap_local : Option ℚ
  price : Option ℚ
  volume : Option ℚ
  market_cap_usd : Option ℚ
  country : Option String
  logo_url : Option (Option String)
deriving DecidableEq

/-- The deterministic external data provider for one run.
`fast` models the `fast_info` access (`Except.error` = raised exception,
which `_fetch_fast_marketcap` re-raises); `info` models `Ticker(t).info`
(`none` = exception or no data — `_fetch_single_ticker_yf` swallows the
exception and retries, which collapses for a deterministic provider);
`quote` models the FX pair quote (resolved last price); `logo` models the
FMP logo lookup (`Except.error` = exception, caught by the gather). -/
structure Provider where
  fast : String → Except Unit (Option FastInfo)
  info : String → Option YfInfo
  quote : String → Option ℚ
  logo : String → Except Unit (Option String)

/-- One attempt of `_fetch_rate_sync` at a pair symbol: a quoted price is
usable only when truthy (`if last_price:` — `0` falsy). -/
def tryQuote (quote : String → Option ℚ) (pair : String) : Option ℚ :=
  match quote pair with
  | some p => if p = 0 then none else some p
  | none => none

/-- `_fetch_rate_sync`: try `USD{c}=X` (use the reciprocal), then
`{c}USD=X` (use the price), else default to `1.0`. -/
def fetchRateSync (quote : String → Option ℚ) (c : String) : ℚ :=
  match tryQuote quote ("USD" ++ c ++ "=X") with
  | some p => 1 / p
  | none =>
    match tryQuote quote (c ++ "USD=X") with
    | some p => p
    | none => 1

/-- `get_usd_exchange_rate(currency)`. The per-run memo cache
`EXCHANGE_RATE_CACHE` only ever stores `_fetch_rate_sync`'s value for the
key, so for a deterministic provider the memoized and the recomputed rate
coincide and the cache is dropped from the embedding. -/
def getUsdExchangeRate (quote : String → Option ℚ) (currency : Option String) : ℚ :=
  match currency with
  | none => 1
  | some c0 =>
    if c0 = "" then 1
    else
      let c := pyUpperStr c0
      if c = "USD" then 1 else fetchRateSync quote c

/-- `_fetch_single_ticker_yf(ticker)`: read the detailed `info` fields;
if neither a market cap nor a price is available the ticker yields no
item (`None`); otherwise the USD market cap is the local market cap times
the resolved rate, and stays `None` when the local value is `None`.
The three-attempt retry loop repeats the same deterministic read. -/
def fetchSingleTickerYf (P : Provider) (ticker : String) : Option Item :=
  let info := (P.info ticker).getD emptyYfInfo
  let market_cap := info.marketCap
  let price := pyOptNumOr info.currentPrice info.regularMarketPrice
  if market_cap ≠ none ∨ price ≠ none then
    let data : Item :=
      { ticker := ticker
        name := pyStrOr info.longName (pyStrOr info.shortName ticker)
        sector := info.sector
        industry := info.industry
        currency := info.currency
        market_cap_local := market_cap
        price := price
        volume := info.volume
        market_cap_usd := none
        country := none
        logo_url := none }
    match market_cap with
    | some mc =>
      let currency := pyStrOr info.currency "USD"
      some { data with
               market_cap_usd := some (mc * getUsdExchangeRate P.quote (some currency)) }
    | none => some data
  else none

/-- `_fetch_fast_marketcap(ticker)`: the cheap `fast_info` scan. An
exception propagates (`_sync_fast` re-raises); a missing `fast_info` or
market cap yields no item; otherwise the USD market cap is the fast
market cap times the resolved rate. -/
def fetchFastMarketcap (P : Provider) (ticker : String) : Except Unit (Option Item) :=
  match P.fast ticker with
  | .error e => .error e
  | .ok none => .ok none
  | .ok (some fi) =>
    match fi.market_cap with
    | none => .ok none
    | some mc =>
      let fast : Item :=
        { ticker := ticker
          market_cap_local := some mc
          price := fi.last_price
          currency := fi.currency
          volume := fi.last_volume
          name := ticker
          sector := none
          industry := none
          market_cap_usd := none
          country := none
          logo_url := none }
      let currency := pyStrOr fi.currency "USD"
      .ok (some { fast with
                    market_cap_usd := some (mc * getUsdExchangeRate P.quote (some currency)) })

/-- Sort key used by both sort calls:
`lambda x: x["market_cap_usd"] or 0.0`. -/
def usdKey (it : Item) : ℚ := it.market_cap_usd.getD 0

/-- `list.sort(key=..., reverse=True)`: stable sort, descending by key.
A stable sort is uniquely determined by its comparator, so the embedding
may use `mergeSort` for Python's (also stable) sort. -/
def sortByUsdDesc (l : List Item) : List Item :=
  l.mergeSort (fun a b => decide (usdKey b ≤ usdKey a))

/-- Phase 1 of `fetch_top_100_data`: the fast scan of every ticker.
Batches of 50 with an inter-batch pause collapse to in-order iteration,
since each per-ticker task is deterministic and results are appended in
submission order. -/
def fastResults (P : Provider) (tickers : List String) :
    List (String × Except Unit (Option Item)) :=
  tickers.map (fun t => (t, fetchFastMarketcap P t))

/-- `fast_valid`: results that produced an item with a USD market cap
(`res and res.get("market_cap_usd") is not None`). -/
def fastValid (P : Provider) (tickers : List String) : List Item :=
  (fastResults P tickers).filterMap (fun r =>
    match r.2 with
    | .ok (some it) => if it.market_cap_usd ≠ none then some it else none
    | _ => none)

/-- `failed_fast_scan_tickers`: tickers whose fast scan raised. -/
def failedFast (P : Provider) (tickers : List String) : List String :=
  (fastResults P tickers).filterMap (fun r =>
    match r.2 with
    | .error _ => some r.1
    | _ => none)

/-- `fast_map`: ticker → fast item (dict built while scanning; per-ticker
results are deterministic, so first and last write coincide). -/
def fastPairs (P : Provider) (tickers : List String) : List (String × Item) :=
  (fastValid P tickers).map (fun it => (it.ticker, it))

/-- `top_fast_tickers`: provisional top 100 of the fast scan. -/
def topFastTickers (P : Provider) (tickers : List String) : List String :=
  ((sortByUsdDesc (fastValid P tickers)).take 100).map Item.ticker

/-- `detail_candidates`: the provisional top 100 plus the fast-scan
failures not already among them. -/
def detailCandidates (P : Provider) (tickers : List String) : List String :=
  topFastTickers P tickers ++
    (failedFast P tickers).filter (fun t => decide (t ∉ topFastTickers P tickers))

/-- Phase 2, `_fetch_with_fallback` mapped over the candidates: the
detailed item if any, else the fast item kept for rank stability
(`detailed or fast_map.get(ticker)`). -/
def detailedResults (P : Provider) (tickers : List String) : List (Option Item) :=
  (detailCandidates P tickers).map (fun t =>
    match fetchSingleTickerYf P t with
    | some d => some d
    | none => (fastPairs P tickers).lookup t)

/-- `valid_items`: drop `None` entries and entries without a USD value. -/
def validItems (P : Provider) (tickers : List String) : List Item :=
  ((detailedResults P tickers).filterMap id).filter
    (fun it => decide (it.market_cap_usd ≠ none))

/-- `top_100` before country/logo enrichment: sorted descending, first 100. -/
def top100Pre (P : Provider) (tickers : List String) : List Item :=
  (sortByUsdDesc (validItems P tickers)).take 100

/-- The country mapping step: `country = tickers_map.get(ticker)`;
`if country:` (truthy) sets the `"country"` key. -/
def applyCountry (tickersMap : List (String × String)) (it : Item) : Item :=
  match tickersMap.lookup it.ticker with
  | some c => if c = "" then it else { it with country := some c }
  | none => it

/-- The logo enrichment step: the `"logo_url"` key is written for every
selected item — with `None` when the lookup failed or raised. -/
def applyLogo (P : Provider) (it : Item) : Item :=
  match P.logo it.ticker with
  | .ok u => { it with logo_url := some u }
  | .error _ => { it with logo_url := some none }

/-- `fetch_top_100_data(tickers_map)`: the full fetcher. An empty fast
scan aborts with `[]`; otherwise detailed data is collected for the
provisional top 100 (plus fast-scan failures), filtered, sorted, cut to
100 and enriched with country and logo. -/
def fetchTop100Data (P : Provider) (tickersMap : List (String × String)) : List Item :=
  let tickers := tickersMap.map Prod.fst
  if fastValid P tickers = [] then []
  else
    ((top100Pre P tickers).map (applyCountry tickersMap)).map (applyLogo P)

/-!
## Persistence model (`models.Company` / `models.Ranking` / `models.Price`)

A calendar date is encoded as `year * 1000 + day-of-year` (day-of-year
< 1000), so the numeric order of encodings is chronological order and
`d / 1000` recovers `date.year`.
-/

/-- `models.Company`: the Entity Master record. -/
structure Company where
  ticker : String
  name : String
  sector : Option String
  industry : Option String
  country : Option String
  currency : Option String
  logo_url : Option String
deriving DecidableEq

/-- `models.Ranking`: one ranking row. `ranking_date` is nullable
(legacy year-only rows have `none`). -/
structure RankingRow where
  year : Nat
  ranking_date : Option Nat
  rank : Nat
  ticker : String
  market_cap : Option ℚ
  company_name : String
deriving DecidableEq

/-- `models.Price`: one price row, keyed by (ticker, date). -/
structure PriceRow where
  ticker : String
  date : Nat
  close : Option ℚ
  market_cap : Option ℚ
  volume : Option ℚ
deriving DecidableEq

/-- The relational store visible to the service. -/
structure DBState where
  companies : List Company
  rankings : List RankingRow
  prices : List PriceRow
deriving DecidableEq

/-!
## Entity Master upserts

Two distinct update policies exist in the source:
`update_rankings_db` keys the country/logo writes on dict *key presence*
(`if "logo_url" in item:`), while the pipeline's own inline upsert in
`collect_and_update_global_top_100` keys them on *truthiness*
(`if item.get("logo_url"):`).
-/

/-- Field update applied to an existing company by `update_rankings_db`
(lines 1349-1363): name/sector/industry/currency via truthy-or, country
and logo written whenever their dict key is present — even when the
incoming value is `None`. -/
def updateCompanyUR (c : Company) (it : Item) : Company :=
  { c with
    name := pyStrOrS it.name c.name
    sector := pyOptStrOr it.sector c.sector
    industry := pyOptStrOr it.industry c.industry
    country := match it.country with
               | some v => some v
               | none => c.country
    currency := pyOptStrOr it.currency c.currency
    logo_url := match it.logo_url with
                | some v => v
                | none => c.logo_url }

/-- Field update applied to an existing company by the pipeline's inline
upsert in `collect_and_update_global_top_100` (lines 1530-1539):
country and logo are written only when the incoming value is truthy
(`if item.get("country"):` / `if item.get("logo_url"):`), so a `None`
logo leaves the prior stored value untouched. -/
def updateCompanyCU (c : Company) (it : Item) : Company :=
  { c with
    name := pyStrOrS it.name c.name
    sector := pyOptStrOr it.sector c.sector
    industry := pyOptStrOr it.industry c.industry
    currency := pyOptStrOr it.currency c.currency
    country := match it.country with
               | some v => if v = "" then c.country else some v
               | none => c.country
    logo_url := match it.logo_url with
                | some (some u) => if u = "" then c.logo_url else some u
                | _ => c.logo_url }

/-- A company freshly inserted by the pipeline's upsert
(`models.Company(...)`, lines 1541-1550): `item.get` semantics, so the
absent-vs-null distinction of `logo_url` flattens away. -/
def newCompanyCU (it : Item) : Company :=
  { ticker := it.ticker
    name := pyStrOrS it.name it.ticker
    sector := it.sector
    industry := it.industry
    country := it.country
    currency := it.currency
    logo_url := it.logo_url.join }

/-- The pipeline's batch company upsert ([4-2]): existing companies
(fetched once, before the loop) are updated in place by every matching
item in order; items without an existing company insert a fresh row. -/
def upsertCompaniesCU (cs : List Company) (items : List Item) : List Company :=
  (cs.map (fun c => (items.filter (fun it => it.ticker = c.ticker)).foldl updateCompanyCU c))
    ++ (items.filter (fun it => decide (¬ cs.any (fun c => c.ticker = it.ticker)))).map newCompanyCU

/-!
## Ranking replace ([4-3]) and price upsert ([4-4])
-/

/-- The rows inserted for a snapshot date by the
`for rank, item in enumerate(top_100, start=1)` loop, starting at rank
`r`. `year` is `ranking_date.year`, i.e. `d / 1000` in the encoding. -/
def mkRankingRows (d : Nat) (r : Nat) : List Item → List RankingRow
  | [] => []
  | it :: rest =>
    { year := d / 1000
      ranking_date := some d
      rank := r
      ticker := it.ticker
      market_cap := it.market_cap_usd
      company_name := pyStrOrS it.name it.ticker } :: mkRankingRows d (r + 1) rest

/-- Ranking replace for a snapshot date: delete every row whose
`ranking_date` equals the date (`delete(...).where(ranking_date == d)`;
rows with a NULL or different date survive), then insert the new ranked
set with ranks 1, 2, 3, …. -/
def replaceRankings (rows : List RankingRow) (d : Nat) (items : List Item) :
    List RankingRow :=
  rows.filter (fun row => decide (¬ row.ranking_date = some d)) ++ mkRankingRows d 1 items

/-- The price-row update applied when a (ticker, date) row exists. -/
def updatePriceRow (p : PriceRow) (it : Item) : PriceRow :=
  { p with close := it.price, market_cap := it.market_cap_usd, volume := it.volume }

/-- The last item of the run carrying a given ticker (the loop updates
the same ORM row once per matching item, so the last write wins). -/
def lastItemFor (items : List Item) (t : String) : Option Item :=
  (items.filter (fun it => it.ticker = t)).getLast?

/-- Price upsert keyed by (ticker, date): rows existing before the loop
are updated in place, items without an existing row insert a new one. -/
def upsertPrices (ps : List PriceRow) (d : Nat) (items : List Item) : List PriceRow :=
  (ps.map (fun p =>
    if p.date = d then
      match lastItemFor items p.ticker with
      | some it => updatePriceRow p it
      | none => p
    else p))
  ++ (items.filter (fun it =>
        decide (¬ ps.any (fun p => p.ticker = it.ticker ∧ p.date = d)))).map
      (fun it => { ticker := it.ticker, date := d, close := it.price,
                   market_cap := it.market_cap_usd, volume := it.volume })

/-!
## The persistence transaction of `collect_and_update_global_top_100`

The session holds a committed state and a pending working state; the
three write phases mutate only the pending state, and the single
`db.commit()` at [4-5] publishes it. `failAt = some i` injects an
exception at phase `i` (0 = company upsert, 1 = ranking replace,
2 = price upsert, ≥ 3 = the commit itself); the `except` handler then
calls `db.rollback()`, discarding the pending state, and the run is
returned with an empty `top_100`.
-/

/-- The three write phases of the transaction, in program order. -/
def persistSteps (d : Nat) (items : List Item) : List (DBState → DBState) :=
  [fun s => { s with companies := upsertCompaniesCU s.companies items },
   fun s => { s with rankings := replaceRankings s.rankings d items },
   fun s => { s with prices := upsertPrices s.prices d items }]

/-- Run the buffered steps then commit. Returns the committed state
after the transaction together with the success flag. -/
def runTransaction : List (DBState → DBState) → Option Nat → DBState → DBState →
    DBState × Bool
  | _ :: _, some 0, committed, _ => (committed, false)
  | step :: rest, some (i + 1), committed, pending =>
      runTransaction rest (some i) committed (step pending)
  | step :: rest, none, committed, pending =>
      runTransaction rest none committed (step pending)
  | [], some _, committed, _ => (committed, false)
  | [], none, _, pending => (pending, true)

/-- The [4-2]..[4-5] block: run the three phases and the commit against a
store whose committed and pending states start equal. -/
def collectPersist (db : DBState) (d : Nat) (items : List Item) (failAt : Option Nat) :
    DBState × Bool :=
  runTransaction (persistSteps d items) failAt db db

/-- The fully-applied persistence effect (what a successful commit
publishes). -/
def persistAll (db : DBState) (d : Nat) (items : List Item) : DBState :=
  { companies := upsertCompaniesCU db.companies items
    rankings := replaceRankings db.rankings d items
    prices := upsertPrices db.prices d items }

/-- What the caller of `collect_and_update_global_top_100` sees: the
collected list on success, an empty `top_100` (the failed-run shape
`{"top_100": [], ...}`) when the transaction failed. -/
def collectRunTop100 (items : List Item) (ok : Bool) : List Item :=
  if ok then items else []

/-!
## Ranking diff engine (`_calculate_ranking_changes`)
-/

/-- The delta record returned by `_calculate_ranking_changes`. -/
structure RankingDelta where
  previous_ranking_date : Option Nat
  new_entries : List String
  exited : List String
  sector_stats : List (String × Nat)
deriving DecidableEq

/-- The most recent non-NULL ranking date strictly before the new date
(`order_by desc limit 1` = maximum of the filtered dates). -/
def latestPastDate (db : List RankingRow) (d : Nat) : Option Nat :=
  ((db.filterMap RankingRow.ranking_date).filter (fun x => x < d)).max?

/-- The most recent ranking year strictly before the new date's year
(the migration-era fallback for rows lacking exact dates). -/
def fallbackYear (db : List RankingRow) (d : Nat) : Option Nat :=
  ((db.map RankingRow.year).filter (fun y => y < d / 1000)).max?

/-- `previous_tickers`: the identifier set (Python `set(...)`, modelled
as a deduplicated list) of the located prior snapshot, via exact date if
one exists, else via the fallback year, else empty. -/
def prevTickerList (db : List RankingRow) (d : Nat) : List String :=
  match latestPastDate db d with
  | some pd => ((db.filter (fun row => row.ranking_date = some pd)).map RankingRow.ticker).dedup
  | none =>
    match fallbackYear db d with
    | some fy => ((db.filter (fun row => row.year = fy)).map RankingRow.ticker).dedup
    | none => []

/-- `current_tickers`: the identifier set of the new snapshot. -/
def currentTickerList (current : List Item) : List String :=
  (current.map Item.ticker).dedup

/-- The sector bucket of an item: `item.get("sector") or "Unknown"`. -/
def sectorKey (it : Item) : String := pyStrOr it.sector "Unknown"

/-- `sector_stats[sector] = sector_stats.get(sector, 0) + 1`: bump one
bucket of the insertion-ordered counting dict. -/
def bumpCount (m : List (String × Nat)) (k : String) : List (String × Nat) :=
  match m with
  | [] => [(k, 1)]
  | (k0, v) :: rest =>
    if k0 = k then (k0, v + 1) :: rest else (k0, v) :: bumpCount rest k

/-- The per-sector counts of the current items. -/
def sectorStats (items : List Item) : List (String × Nat) :=
  items.foldl (fun m it => bumpCount m (sectorKey it)) []

/-- Sum of the bucket counts. -/
def sumCounts (m : List (String × Nat)) : Nat :=
  (m.map Prod.snd).sum

/-- Python `sorted` on a list of strings. -/
def sortStrings (l : List String) : List String :=
  l.mergeSort (fun a b => decide (a ≤ b))

/-- `_calculate_ranking_changes(db, current_top_100, ranking_date)`:
entrants and exits are the two set differences (sorted), and the sector
distribution counts every current item in exactly one bucket. -/
def calcRankingChanges (db : List RankingRow) (current : List Item) (d : Nat) :
    RankingDelta :=
  let currentT := currentTickerList current
  let prevT := prevTickerList db d
  { previous_ranking_date := latestPastDate db d
    new_entries := sortStrings (currentT.filter (fun t => decide (t ∉ prevT)))
    exited := sortStrings (prevT.filter (fun t => decide (t ∉ currentT)))
    sector_stats := sectorStats current }

/-!
## Index harvester tail (`fetch_index_tickers`)

The per-source scraping is network I/O; the claims about the harvester
concern only what it returns once the combined per-source harvest map is
known: `unique_tickers_map = dict(sorted(all_tickers_map.items()))` is
returned as-is — in particular the zero-candidate case returns the empty
mapping (the empty branch only logs).
-/

/-- The tail of `fetch_index_tickers`: sort the harvested
(ticker, country) pairs (Python tuple order) and return them. There is
no fallback injection for an empty harvest. -/
def fetchIndexTickersFinish (allTickersMap : List (String × String)) :
    List (String × String) :=
  allTickersMap.mergeSort
    (fun a b => decide (a.1 < b.1 ∨ (a.1 = b.1 ∧ a.2 ≤ b.2)))

/-- The guard at the start of `collect_and_update_global_top_100`:
`if not tickers: return {"top_100": [], ...}` — an empty harvest is a
failed run. -/
def collectGuardTop100 (tickersMap : List (String × String)) (rest : List Item) :
    List Item :=
  if tickersMap = [] then [] else rest

/-!
## Concrete fixtures used by witnesses and counterexamples
-/

/-- A detailed-info record quoting a market cap of 5 in currency `JJJ`. -/
def infoJJ : YfInfo :=
  { marketCap := some 5, currentPrice := none, regularMarketPrice := none,
    longName := some "J Corp", shortName := none, sector := none,
    industry := none, currency := some "JJJ", volume := none }

/-- Provider whose FX quote resolves in neither direction. -/
def provNoFx : Provider :=
  { fast := fun _ => .ok none
    info := fun t => if t = "JJ1" then some infoJJ else none
    quote := fun _ => none
    logo := fun _ => .ok none }

/-- Provider identical to `provNoFx` except that the `JJJUSD=X` pair
resolves to a confirmed quote of exactly 1. -/
def provUnitFx : Provider :=
  { fast := fun _ => .ok none
    info := fun t => if t = "JJ1" then some infoJJ else none
    quote := fun s => if s = "JJJUSD=X" then some 1 else none
    logo := fun _ => .ok none }

/-- A fast-info record for a USD ticker with market cap 100. -/
def fastAaa : FastInfo :=
  { market_cap := some 100, last_price := some 10, currency := some "USD",
    last_volume := some 1000 }

/-- A one-ticker provider for which the whole fetcher succeeds. -/
def provOne : Provider :=
  { fast := fun t => if t = "AAA" then .ok (some fastAaa) else .ok none
    info := fun _ => none
    quote := fun _ => none
    logo := fun _ => .ok none }

/-- An item as the fetcher produces it for `provOne`'s ticker `AAA`. -/
def itemAaa : Item :=
  { ticker := "AAA", name := "AAA", sector := none, industry := none,
    currency := some "USD", market_cap_local := some 100, price := some 10,
    volume := some 1000, market_cap_usd := some 100, country := some "US",
    logo_url := some none }

/-- An item whose logo lookup came back empty this run
(`"logo_url"` key present with value `None`). -/
def itemNullLogo : Item :=
  { ticker := "AAA", name := "New Name", sector := none, industry := none,
    currency := none, market_cap_local := some 7, price := none,
    volume := none, market_cap_usd := some 7, country := none,
    logo_url := some none }

/-- A previously stored company with a known logo. -/
def companyOldLogo : Company :=
  { ticker := "AAA", name := "Old Name", sector := some "Tech",
    industry := none, country := none, currency := none,
    logo_url := some "https://img.example/old.png" }

/-- A minimal current-snapshot item for diff-engine examples. -/
def diffItem (t : String) (sec : Option String) : Item :=
  { ticker := t, name := t, sector := sec, industry := none, currency := none,
    market_cap_local := none, price := none, volume := none,
    market_cap_usd := none, country := none, logo_url := none }

/-- Scenario C's current snapshot: identifiers A, B, C. -/
def currentEx : List Item :=
  [diffItem "A" (some "Tech"), diffItem "B" none, diffItem "C" (some "Energy")]

/-- A persisted ranking row dated 2023, day 150 (encoded `2023150`). -/
def rowEx (t : String) : RankingRow :=
  { year := 2023, ranking_date := some 2023150, rank := 1, ticker := t,
    market_cap := none, company_name := t }

/-- Scenario C's persisted history: prior snapshot B, C, D. -/
def dbEx : List RankingRow := [rowEx "B", rowEx "C", rowEx "D"]

/-- The normalization invariant of a snapshot item: the local market
value is present and the USD value is exactly the local value times the
rate the run resolves for the item's currency (`None` currency resolves
as USD). -/
def itemOk (P : Provider) (it : Item) : Prop :=
  ∃ mc, it.market_cap_local = some mc ∧
    it.market_cap_usd =
      some (mc * getUsdExchangeRate P.quote (some (pyStrOr it.currency "USD")))

/-- The tiered fetch can produce a market value or a price for this
identifier: either the fast path has a market cap, or the detailed info
has a market cap or a price. -/
def hasMarketData (P : Provider) (t : String) : Prop :=
  (∃ fi mc, P.fast t = .ok (some fi) ∧ fi.market_cap = some mc) ∨
  (((P.info t).getD emptyYfInfo).marketCap ≠ none ∨
    pyOptNumOr ((P.info t).getD emptyYfInfo).currentPrice
      ((P.info t).getD emptyYfInfo).regularMarketPrice ≠ none)

/-!
## Theorems
-/

/-! Basic facts about the character-level helpers. -/

lemma pyUpperChar_idem (c : Nat) : pyUpperChar (pyUpperChar c) = pyUpperChar c := by
  simp only [pyUpperChar]
  split_ifs <;> omega

lemma pyUpper_idem (s : List Nat) : pyUpper (pyUpper s) = pyUpper s := by
  simp only [pyUpper, List.map_map]
  exact List.map_congr_left (fun a _ => pyUpperChar_idem a)

lemma pyUpper_append (a b : List Nat) : pyUpper (a ++ b) = pyUpper a ++ pyUpper b :=
  List.map_append _ _ _

lemma pyUpper_ne_nil {s : List Nat} (h : s ≠ []) : pyUpper s ≠ [] := by
  simpa [pyUpper] using h

lemma pyUpper_length (s : List Nat) : (pyUpper s).length = s.length :=
  List.length_map _ _

/-- Every suffix the country map can return is upper-case-fixed and
contains the dot (code 46). -/
lemma countrySuffixMap_spec (cc : String) (s : List Nat)
    (h : countrySuffixMap cc = some s) : pyUpper s = s ∧ 46 ∈ s := by
  unfold countrySuffixMap at h
  rcases hf : countrySuffixList.find? (fun p => p.1 = cc) with _ | p
  · rw [hf] at h; cases h
  · rw [hf] at h
    simp only [Option.map_some', Option.some.injEq] at h
    subst h
    have hp : p ∈ countrySuffixList := List.mem_of_find?_eq_some hf
    have hall : ∀ q ∈ countrySuffixList, pyUpper q.2 = q.2 ∧ 46 ∈ q.2 := by decide
    exact hall p hp

lemma countrySuffixMap_china : countrySuffixMap "China" = some [46, 83, 83] := by
  decide

/-- Applying the suffix rule to a non-empty already-uppercase symbol that
has a dot-bearing, uppercase-fixed suffix appended is the identity. -/
lemma applyCountrySuffix_suffixed (u s : List Nat) (c : Option String)
    (hun : u ≠ []) (hup : pyUpper u = u) (hs : pyUpper s = s) (h46 : 46 ∈ s) :
    applyCountrySuffix (u ++ s) c = u ++ s := by
  have hne : u ++ s ≠ [] := by
    intro h
    exact hun (List.append_eq_nil.mp h).1
  have hupp : pyUpper (u ++ s) = u ++ s := by
    rw [pyUpper_append, hup, hs]
  have hmem : 46 ∈ pyUpper (u ++ s) := by
    rw [hupp]
    exact List.mem_append_right _ h46
  simp only [applyCountrySuffix, if_neg hne]
  rw [if_pos]
  · exact hupp
  · exact hmem

/-- Applying the suffix rule to a non-empty, already-uppercase symbol that
contains a dot is the identity. -/
lemma applyCountrySuffix_of_contains (u : List Nat) (c : Option String)
    (hun : u ≠ []) (hup : pyUpper u = u) (h46 : 46 ∈ u) :
    applyCountrySuffix u c = u := by
  simp only [applyCountrySuffix, if_neg hun]
  rw [hup, if_pos h46]

/-- C9 (claim of §8): the normalizer `_apply_country_suffix` is idempotent.
Normalizing an already-normalized symbol is a no-op, for every symbol and
every country hint. -/
theorem applyCountrySuffix_idem (t : List Nat) (c : Option String) :
    applyCountrySuffix (applyCountrySuffix t c) c = applyCountrySuffix t c := by
  by_cases ht : t = []
  · subst ht
    simp [applyCountrySuffix]
  · have hun : pyUpper t ≠ [] := pyUpper_ne_nil ht
    have hupidem : pyUpper (pyUpper t) = pyUpper t := pyUpper_idem t
    by_cases h46 : 46 ∈ pyUpper t
    · have h1 : applyCountrySuffix t c = pyUpper t := by
        simp only [applyCountrySuffix, if_neg ht]
        rw [if_pos h46]
      rw [h1]
      exact applyCountrySuffix_of_contains _ c hun hupidem h46
    · -- no dot yet: the result is either `pyUpper t` with a suffix appended,
      -- or `pyUpper t` unchanged (no map entry, non-China country)
      by_cases hch : c = some "China"
      · subst hch
        have hres : applyCountrySuffix t (some "China") = pyUpper t ++ [46, 83, 90] ∨
            applyCountrySuffix t (some "China") = pyUpper t ++ [46, 83, 83] := by
          simp only [applyCountrySuffix, if_neg ht, if_neg h46, if_pos rfl,
            countrySuffixMap_china]
          split_ifs <;> simp
        rcases hres with h | h <;> rw [h] <;>
          exact applyCountrySuffix_suffixed _ _ _ hun hupidem (by decide) (by decide)
      · rcases hm : countrySuffixMap (c.getD "") with _ | s
        · have h1 : applyCountrySuffix t c = pyUpper t := by
            simp only [applyCountrySuffix, if_neg ht, if_neg h46, if_neg hch, hm]
          rw [h1]
          have h2 : applyCountrySuffix (pyUpper t) c = pyUpper t := by
            simp only [applyCountrySuffix, if_neg hun, hupidem, if_neg h46, if_neg hch, hm]
          exact h2
        · obtain ⟨hs, hs46⟩ := countrySuffixMap_spec _ _ hm
          have h1 : applyCountrySuffix t c = pyUpper t ++ s := by
            simp only [applyCountrySuffix, if_neg ht, if_neg h46, if_neg hch, hm]
          rw [h1]
          exact applyCountrySuffix_suffixed _ _ _ hun hupidem hs hs46

/-- The suffix rule never turns a non-empty symbol into the empty one. -/
lemma applyCountrySuffix_ne_nil {t : List Nat} (c : Option String) (h : t ≠ []) :
    applyCountrySuffix t c ≠ [] := by
  have hun : pyUpper t ≠ [] := pyUpper_ne_nil h
  by_cases h46 : 46 ∈ pyUpper t
  · simp only [applyCountrySuffix, if_neg h]
    rw [if_pos h46]
    exact hun
  · by_cases hch : c = some "China"
    · subst hch
      simp only [applyCountrySuffix, if_neg h, if_neg h46, if_pos rfl,
        countrySuffixMap_china]
      split_ifs <;> simp [hun]
    · rcases hm : countrySuffixMap (c.getD "") with _ | s
      · simp only [applyCountrySuffix, if_neg h, if_neg h46, if_neg hch, hm]
        exact hun
      · simp only [applyCountrySuffix, if_neg h, if_neg h46, if_neg hch, hm]
        intro hc
        exact hun (List.append_eq_nil.mp hc).1

/-- C4 counterexample: the raw symbol `"NYSE:IBM"` (codes; 58 is the colon)
is not dropped by `_process_row` — it is entered into the harvest map
unchanged, contradicting the claim that any symbol containing a colon
normalizes to null. -/
theorem processRow_colon_counterexample :
    processRow (some [78, 89, 83, 69, 58, 73, 66, 77]) none =
      some [78, 89, 83, 69, 58, 73, 66, 77] ∧
    58 ∈ [78, 89, 83, 69, 58, 73, 66, 77] := by
  decide

/-- C4 amended: `_process_row` returns null exactly when the cleaned-up
symbol (stripped, uppercased, truncated at the first internal whitespace,
parentheses removed) is empty; otherwise it returns the country-suffixed
cleaned symbol. In particular commas and colons pass through unmodified
and an internal space truncates rather than rejects. -/
theorem processRow_none_iff (v : List Nat) (c : Option String) :
    (processRow (some v) c = none ↔ cleanedSymbol v = []) ∧
    (∀ n, processRow (some v) c = some n → n = applyCountrySuffix (cleanedSymbol v) c) := by
  by_cases hs : cleanedSymbol v = []
  · constructor
    · simp [processRow, hs]
    · intro n hn
      simp [processRow, hs] at hn
  · have hne : applyCountrySuffix (cleanedSymbol v) c ≠ [] :=
      applyCountrySuffix_ne_nil c hs
    constructor
    · simp [processRow, hs, hne]
    · intro n hn
      simp only [processRow, if_neg hs, if_neg hne, Option.some.injEq] at hn
      exact hn.symm

/-! Facts about the snapshot fetcher. -/

lemma lookup_mem {α β : Type} [BEq α] [LawfulBEq α] {l : List (α × β)} {k : α} {v : β}
    (h : l.lookup k = some v) : (k, v) ∈ l := by
  induction l with
  | nil => cases h
  | cons p rest ih =>
    obtain ⟨a, b⟩ := p
    rcases hk : k == a with _ | _
    · simp only [List.lookup, hk] at h
      exact List.mem_cons_of_mem _ (ih h)
    · simp only [List.lookup, hk] at h
      obtain rfl : b = v := Option.some.inj h
      have hka : k = a := eq_of_beq hk
      subst hka
      exact List.mem_cons_self _ _

lemma fetchFastMarketcap_ok {P : Provider} {t : String} {it : Item}
    (h : fetchFastMarketcap P t = .ok (some it)) :
    it.ticker = t ∧ itemOk P it ∧
      ∃ fi mc, P.fast t = .ok (some fi) ∧ fi.market_cap = some mc := by
  unfold fetchFastMarketcap at h
  split at h
  · cases h
  · cases h
  · rename_i fi heq
    split at h
    · cases h
    · rename_i mc hmc
      simp only [Except.ok.injEq, Option.some.injEq] at h
      subst h
      exact ⟨rfl, ⟨mc, rfl, rfl⟩, fi, mc, heq, hmc⟩

lemma fetchSingleTickerYf_ok {P : Provider} {t : String} {it : Item}
    (h : fetchSingleTickerYf P t = some it) :
    it.ticker = t ∧ (it.market_cap_usd ≠ none → itemOk P it) ∧
      (((P.info t).getD emptyYfInfo).marketCap ≠ none ∨
        pyOptNumOr ((P.info t).getD emptyYfInfo).currentPrice
          ((P.info t).getD emptyYfInfo).regularMarketPrice ≠ none) := by
  simp only [fetchSingleTickerYf] at h
  split at h
  · rename_i hcond
    split at h
    · rename_i mc hmc
      simp only [Option.some.injEq] at h
      subst h
      refine ⟨rfl, fun _ => ⟨mc, ?_, rfl⟩, hcond⟩
      exact hmc
    · rename_i hmc
      simp only [Option.some.injEq] at h
      subst h
      refine ⟨rfl, ?_, hcond⟩
      intro husd
      exact absurd rfl husd
  · cases h

lemma mem_fastValid {P : Provider} {tickers : List String} {it : Item}
    (h : it ∈ fastValid P tickers) :
    itemOk P it ∧ ∃ fi mc, P.fast it.ticker = .ok (some fi) ∧ fi.market_cap = some mc := by
  unfold fastValid fastResults at h
  rw [List.mem_filterMap] at h
  obtain ⟨pr, hmem, hf⟩ := h
  rw [List.mem_map] at hmem
  obtain ⟨t, ht, heq⟩ := hmem
  subst heq
  dsimp only at hf
  rcases hres : fetchFastMarketcap P t with e | ofi
  · simp only [hres] at hf
    exact Option.noConfusion hf
  · rcases ofi with _ | it0
    · simp only [hres] at hf
      exact Option.noConfusion hf
    · simp only [hres] at hf
      by_cases husd : it0.market_cap_usd ≠ none
      · rw [if_pos husd] at hf
        obtain rfl : it0 = it := Option.some.inj hf
        obtain ⟨htick, hok, hdata⟩ := fetchFastMarketcap_ok hres
        rw [← htick] at hdata
        exact ⟨hok, hdata⟩
      · rw [if_neg husd] at hf
        cases hf

lemma mem_validItems {P : Provider} {tickers : List String} {it : Item}
    (h : it ∈ validItems P tickers) :
    itemOk P it ∧ hasMarketData P it.ticker ∧ it.market_cap_usd ≠ none := by
  unfold validItems at h
  rw [List.mem_filter] at h
  obtain ⟨h1, h2⟩ := h
  have husd : it.market_cap_usd ≠ none := of_decide_eq_true h2
  rw [List.mem_filterMap] at h1
  obtain ⟨o, ho, hoe⟩ := h1
  obtain rfl : o = some it := hoe
  unfold detailedResults at ho
  rw [List.mem_map] at ho
  obtain ⟨t, ht, hmatch⟩ := ho
  rcases hd : fetchSingleTickerYf P t with _ | d
  · simp only [hd] at hmatch
    have hpair := lookup_mem hmatch
    unfold fastPairs at hpair
    rw [List.mem_map] at hpair
    obtain ⟨a, ha, heq2⟩ := hpair
    have h4 : a = it := congrArg Prod.snd heq2
    subst h4
    obtain ⟨hok, fi, mc, hfast, hmc⟩ := mem_fastValid ha
    exact ⟨hok, Or.inl ⟨fi, mc, hfast, hmc⟩, husd⟩
  · simp only [hd] at hmatch
    obtain rfl : d = it := Option.some.inj hmatch
    obtain ⟨htick, hok, hinfo⟩ := fetchSingleTickerYf_ok hd
    subst htick
    exact ⟨hok husd, Or.inr hinfo, husd⟩

lemma applyCountry_fields (tm : List (String × String)) (it : Item) :
    (applyCountry tm it).ticker = it.ticker ∧
    (applyCountry tm it).market_cap_local = it.market_cap_local ∧
    (applyCountry tm it).market_cap_usd = it.market_cap_usd ∧
    (applyCountry tm it).currency = it.currency := by
  unfold applyCountry
  rcases hm : tm.lookup it.ticker with _ | c
  · exact ⟨rfl, rfl, rfl, rfl⟩
  · dsimp only
    split_ifs with hc
    · exact ⟨rfl, rfl, rfl, rfl⟩
    · exact ⟨rfl, rfl, rfl, rfl⟩

lemma applyLogo_fields (P : Provider) (it : Item) :
    (applyLogo P it).ticker = it.ticker ∧
    (applyLogo P it).market_cap_local = it.market_cap_local ∧
    (applyLogo P it).market_cap_usd = it.market_cap_usd ∧
    (applyLogo P it).currency = it.currency := by
  unfold applyLogo
  rcases hm : P.logo it.ticker with e | u
  · exact ⟨rfl, rfl, rfl, rfl⟩
  · exact ⟨rfl, rfl, rfl, rfl⟩

lemma itemOk_of_enriched {P : Provider} {tm : List (String × String)} {it : Item}
    (h : itemOk P it) : itemOk P (applyLogo P (applyCountry tm it)) := by
  obtain ⟨hct, hcl, hcu, hcc⟩ := applyCountry_fields tm it
  obtain ⟨hlt, hll, hlu, hlc⟩ := applyLogo_fields P (applyCountry tm it)
  unfold itemOk at h ⊢
  rw [hll, hlu, hlc, hcl, hcu, hcc]
  exact h

lemma ticker_of_enriched (P : Provider) (tm : List (String × String)) (it : Item) :
    (applyLogo P (applyCountry tm it)).ticker = it.ticker := by
  obtain ⟨hct, _, _, _⟩ := applyCountry_fields tm it
  obtain ⟨hlt, _, _, _⟩ := applyLogo_fields P (applyCountry tm it)
  rw [hlt, hct]

lemma usdKey_of_enriched (P : Provider) (tm : List (String × String)) (it : Item) :
    usdKey (applyLogo P (applyCountry tm it)) = usdKey it := by
  obtain ⟨_, _, hcu, _⟩ := applyCountry_fields tm it
  obtain ⟨_, _, hlu, _⟩ := applyLogo_fields P (applyCountry tm it)
  unfold usdKey
  rw [hlu, hcu]

lemma usd_of_enriched (P : Provider) (tm : List (String × String)) (it : Item) :
    (applyLogo P (applyCountry tm it)).market_cap_usd = it.market_cap_usd := by
  obtain ⟨_, _, hcu, _⟩ := applyCountry_fields tm it
  obtain ⟨_, _, hlu, _⟩ := applyLogo_fields P (applyCountry tm it)
  rw [hlu, hcu]

/-- Everything the fetcher returns satisfies the normalization invariant
and stems from an identifier with fetchable market data. -/
lemma mem_fetchTop100 {P : Provider} {tm : List (String × String)} {it : Item}
    (h : it ∈ fetchTop100Data P tm) :
    itemOk P it ∧ hasMarketData P it.ticker ∧ it.market_cap_usd ≠ none := by
  unfold fetchTop100Data at h
  by_cases hfv : fastValid P (tm.map Prod.fst) = []
  · rw [if_pos hfv] at h
    exact absurd h (List.not_mem_nil it)
  · rw [if_neg hfv] at h
    rw [List.mem_map] at h
    obtain ⟨a, ha, rfl⟩ := h
    rw [List.mem_map] at ha
    obtain ⟨b, hb, rfl⟩ := ha
    have hb2 : b ∈ validItems P (tm.map Prod.fst) := by
      unfold top100Pre at hb
      have hb3 := List.mem_of_mem_take hb
      rw [sortByUsdDesc, List.mem_mergeSort] at hb3
      exact hb3
    obtain ⟨hok, hdata, husd⟩ := mem_validItems hb2
    refine ⟨itemOk_of_enriched hok, ?_, ?_⟩
    · rw [ticker_of_enriched]
      exact hdata
    · rw [usd_of_enriched]
      exact husd

lemma usdKey_applyCountry (tm : List (String × String)) (it : Item) :
    usdKey (applyCountry tm it) = usdKey it := by
  unfold usdKey
  rw [(applyCountry_fields tm it).2.2.1]

lemma usdKey_applyLogo (P : Provider) (it : Item) :
    usdKey (applyLogo P it) = usdKey it := by
  unfold usdKey
  rw [(applyLogo_fields P it).2.2.1]

lemma sortByUsdDesc_pairwise (l : List Item) :
    (sortByUsdDesc l).Pairwise (fun a b => usdKey b ≤ usdKey a) := by
  have htrans : ∀ (a b c : Item),
      decide (usdKey b ≤ usdKey a) →
      decide (usdKey c ≤ usdKey b) →
      decide (usdKey c ≤ usdKey a) := by
    intro a b c hab hbc
    have h1 := of_decide_eq_true hab
    have h2 := of_decide_eq_true hbc
    exact decide_eq_true (le_trans h2 h1)
  have htotal : ∀ (a b : Item),
      (decide (usdKey b ≤ usdKey a) || decide (usdKey a ≤ usdKey b)) := by
    intro a b
    rcases le_total (usdKey b) (usdKey a) with h | h
    · simp [h]
    · simp [h]
  have h := List.sorted_mergeSort htrans htotal l
  exact h.imp (fun hab => of_decide_eq_true hab)

lemma fetchTop100_pairwise (P : Provider) (tm : List (String × String)) :
    (fetchTop100Data P tm).Pairwise (fun a b => usdKey b ≤ usdKey a) := by
  unfold fetchTop100Data
  by_cases hfv : fastValid P (tm.map Prod.fst) = []
  · rw [if_pos hfv]
    exact List.Pairwise.nil
  · rw [if_neg hfv]
    have h1 : (top100Pre P (tm.map Prod.fst)).Pairwise (fun a b => usdKey b ≤ usdKey a) :=
      List.Pairwise.sublist (List.take_sublist _ _) (sortByUsdDesc_pairwise _)
    have h2 : ((top100Pre P (tm.map Prod.fst)).map (applyCountry tm)).Pairwise
        (fun a b => usdKey b ≤ usdKey a) :=
      List.Pairwise.map _ (fun a b hab => by
        rw [usdKey_applyCountry, usdKey_applyCountry]; exact hab) h1
    exact List.Pairwise.map _ (fun a b hab => by
      rw [usdKey_applyLogo, usdKey_applyLogo]; exact hab) h2

lemma fetchTop100_length (P : Provider) (tm : List (String × String)) :
    (fetchTop100Data P tm).length ≤ 100 := by
  unfold fetchTop100Data
  by_cases hfv : fastValid P (tm.map Prod.fst) = []
  · rw [if_pos hfv]
    exact Nat.zero_le _
  · rw [if_neg hfv]
    rw [List.length_map, List.length_map]
    unfold top100Pre
    rw [List.length_take]
    exact min_le_left _ _

lemma mkRankingRows_map_rank (d : Nat) (items : List Item) :
    ∀ r, (mkRankingRows d r items).map RankingRow.rank = List.range' r items.length := by
  induction items with
  | nil => intro r; rfl
  | cons it rest ih =>
    intro r
    rw [mkRankingRows, List.map_cons, List.length_cons, List.range'_succ, ih (r + 1)]

lemma mkRankingRows_map_cap (d : Nat) (items : List Item) :
    ∀ r, (mkRankingRows d r items).map RankingRow.market_cap =
      items.map Item.market_cap_usd := by
  induction items with
  | nil => intro r; rfl
  | cons it rest ih =>
    intro r
    rw [mkRankingRows, List.map_cons, List.map_cons, ih (r + 1)]

/-- Concrete evaluation of the fetcher on the one-ticker provider. -/
lemma fetchTop100_provOne_eval : fetchTop100Data provOne [("AAA", "US")] = [itemAaa] := by
  simp [fetchTop100Data, fastValid, fastResults, fetchFastMarketcap, provOne, fastAaa,
    top100Pre, sortByUsdDesc, validItems, detailedResults, detailCandidates,
    topFastTickers, fastPairs, failedFast, fetchSingleTickerYf, emptyYfInfo,
    applyCountry, applyLogo, itemAaa, getUsdExchangeRate, pyUpperStr, pyStrOr,
    usdKey, pyOptNumOr, List.lookup]

lemma itemAaa_mem : itemAaa ∈ fetchTop100Data provOne [("AAA", "US")] := by
  rw [fetchTop100_provOne_eval]
  exact List.mem_singleton_self itemAaa

/-- C2: every item in the list returned by `fetch_top_100_data` has a
non-null USD-normalized market value equal to its (non-null) local value
times the FX rate the run resolves for the item's currency (`itemOk`,
which in particular rules out a null local value with a zero-defaulted
USD value), and stems from an identifier for which the tiered fetch
produced a market value or a price (`hasMarketData` — contrapositively,
an identifier yielding neither contributes no item at all). -/
theorem snapshot_fetcher_usd_invariant (P : Provider) (tm : List (String × String))
    (it : Item) (h : it ∈ fetchTop100Data P tm) :
    itemOk P it ∧ hasMarketData P it.ticker ∧ it.market_cap_usd ≠ none :=
  mem_fetchTop100 h

/-- Witness for C2 at a concrete provider and harvest map. -/
theorem snapshot_fetcher_usd_invariant_witness :
    itemOk provOne itemAaa ∧ hasMarketData provOne itemAaa.ticker ∧
      itemAaa.market_cap_usd ≠ none :=
  snapshot_fetcher_usd_invariant provOne [("AAA", "US")] itemAaa itemAaa_mem

/-- C10: the Top-N selection returns at most 100 items, ordered by
USD-normalized value descending (under the sort key `usd or 0.0` the code
uses — every returned item's USD value is non-null, so the `or 0.0`
default never distinguishes items); the ranking rows later built from the
result carry the sequential ranks 1, 2, 3, … in exactly this order
(their `market_cap` column lists the items' USD values in list order). -/
theorem top_n_selector_ordering (P : Provider) (tm : List (String × String)) (d : Nat) :
    (fetchTop100Data P tm).length ≤ 100 ∧
    (fetchTop100Data P tm).Pairwise (fun a b => usdKey b ≤ usdKey a) ∧
    (∀ it ∈ fetchTop100Data P tm, it.market_cap_usd ≠ none) ∧
    (mkRankingRows d 1 (fetchTop100Data P tm)).map RankingRow.rank =
      List.range' 1 (fetchTop100Data P tm).length ∧
    (mkRankingRows d 1 (fetchTop100Data P tm)).map RankingRow.market_cap =
      (fetchTop100Data P tm).map Item.market_cap_usd :=
  ⟨fetchTop100_length P tm, fetchTop100_pairwise P tm,
   fun _ h => (mem_fetchTop100 h).2.2,
   mkRankingRows_map_rank d _ 1, mkRankingRows_map_cap d _ 1⟩

/-- Witness for C10: the membership hypothesis of the third conjunct
discharged at a concrete run. -/
theorem top_n_selector_ordering_witness : itemAaa.market_cap_usd ≠ none :=
  (top_n_selector_ordering provOne [("AAA", "US")] 2024150).2.2.1 itemAaa itemAaa_mem

/-! Facts about the ranking replace. -/

lemma mkRankingRows_dates (d : Nat) (items : List Item) :
    ∀ r, ∀ row ∈ mkRankingRows d r items, row.ranking_date = some d := by
  induction items with
  | nil =>
    intro r row hrow
    exact absurd hrow (List.not_mem_nil row)
  | cons it rest ih =>
    intro r row hrow
    rcases List.mem_cons.mp hrow with h | h
    · subst h; rfl
    · exact ih (r + 1) row h

lemma mkRankingRows_length (d : Nat) (items : List Item) :
    ∀ r, (mkRankingRows d r items).length = items.length := by
  induction items with
  | nil => intro r; rfl
  | cons it rest ih =>
    intro r
    rw [mkRankingRows, List.length_cons, List.length_cons, ih (r + 1)]

lemma replaceRankings_filter_date (rows : List RankingRow) (d : Nat) (items : List Item) :
    (replaceRankings rows d items).filter (fun row => decide (row.ranking_date = some d)) =
      mkRankingRows d 1 items := by
  unfold replaceRankings
  rw [List.filter_append]
  have h1 : (rows.filter (fun row => decide (¬ row.ranking_date = some d))).filter
      (fun row => decide (row.ranking_date = some d)) = [] := by
    rw [List.filter_eq_nil_iff]
    intro row hrow hpos
    obtain ⟨_, hneg⟩ := List.mem_filter.mp hrow
    exact (of_decide_eq_true hneg) (of_decide_eq_true hpos)
  have h2 : (mkRankingRows d 1 items).filter
      (fun row => decide (row.ranking_date = some d)) = mkRankingRows d 1 items := by
    rw [List.filter_eq_self]
    intro row hrow
    exact decide_eq_true (mkRankingRows_dates d items 1 row hrow)
  rw [h1, h2, List.nil_append]

lemma replaceRankings_second_wins (rows : List RankingRow) (d : Nat) (xs ys : List Item) :
    replaceRankings (replaceRankings rows d xs) d ys = replaceRankings rows d ys := by
  unfold replaceRankings
  congr 1
  rw [List.filter_append, List.filter_filter]
  have h1 : (mkRankingRows d 1 xs).filter
      (fun row => decide (¬ row.ranking_date = some d)) = [] := by
    rw [List.filter_eq_nil_iff]
    intro row hrow hneg
    exact (of_decide_eq_true hneg) (mkRankingRows_dates d xs 1 row hrow)
  rw [h1, List.append_nil]
  apply List.filter_congr
  intro row hrow
  rw [Bool.and_self]

/-- C1: the ranking replace deletes exactly the rows of the snapshot date
and inserts the new ranked set with sequential ranks starting at 1; a
second run for the same date fully supersedes the first (also through the
whole persistence effect `persistAll`), so the per-date row count after
two runs equals the second run's item count. -/
theorem ranking_replace_delete_insert (db : DBState) (rows : List RankingRow) (d : Nat)
    (items xs ys : List Item) :
    ((replaceRankings rows d items).filter
        (fun row => decide (row.ranking_date = some d)) = mkRankingRows d 1 items) ∧
    ((mkRankingRows d 1 items).map RankingRow.rank = List.range' 1 items.length) ∧
    (replaceRankings (replaceRankings rows d xs) d ys = replaceRankings rows d ys) ∧
    (((replaceRankings (replaceRankings rows d xs) d ys).filter
        (fun row => decide (row.ranking_date = some d))).length = ys.length) ∧
    ((persistAll (persistAll db d xs) d ys).rankings =
      replaceRankings db.rankings d ys) := by
  refine ⟨replaceRankings_filter_date rows d items,
    mkRankingRows_map_rank d items 1, replaceRankings_second_wins rows d xs ys, ?_, ?_⟩
  · rw [replaceRankings_second_wins, replaceRankings_filter_date,
      mkRankingRows_length d ys 1]
  · show replaceRankings (replaceRankings db.rankings d xs) d ys =
      replaceRankings db.rankings d ys
    exact replaceRankings_second_wins db.rankings d xs ys

/-! Facts about the ranking diff engine. -/

lemma sumCounts_bump (m : List (String × Nat)) (k : String) :
    sumCounts (bumpCount m k) = sumCounts m + 1 := by
  induction m with
  | nil => rfl
  | cons p rest ih =>
    obtain ⟨k0, v⟩ := p
    by_cases hk : k0 = k
    · simp [bumpCount, hk, sumCounts]
      omega
    · simp [bumpCount, hk, sumCounts] at ih ⊢
      omega

lemma sectorStats_sum (items : List Item) :
    sumCounts (sectorStats items) = items.length := by
  have hgen : ∀ m, sumCounts (items.foldl (fun m it => bumpCount m (sectorKey it)) m) =
      sumCounts m + items.length := by
    induction items with
    | nil => intro m; simp
    | cons it rest ih =>
      intro m
      rw [List.foldl_cons, ih (bumpCount m (sectorKey it)), sumCounts_bump,
        List.length_cons]
      omega
  have h := hgen []
  rw [sectorStats, h]
  simp [sumCounts]

lemma mem_new_entries (db : List RankingRow) (current : List Item) (d : Nat) (t : String) :
    t ∈ (calcRankingChanges db current d).new_entries ↔
      (t ∈ current.map Item.ticker ∧ t ∉ prevTickerList db d) := by
  unfold calcRankingChanges sortStrings
  rw [List.mem_mergeSort, List.mem_filter]
  unfold currentTickerList
  rw [List.mem_dedup]
  constructor
  · rintro ⟨h1, h2⟩
    exact ⟨h1, of_decide_eq_true h2⟩
  · rintro ⟨h1, h2⟩
    exact ⟨h1, decide_eq_true h2⟩

lemma mem_exited (db : List RankingRow) (current : List Item) (d : Nat) (t : String) :
    t ∈ (calcRankingChanges db current d).exited ↔
      (t ∈ prevTickerList db d ∧ t ∉ current.map Item.ticker) := by
  unfold calcRankingChanges sortStrings
  rw [List.mem_mergeSort, List.mem_filter]
  constructor
  · rintro ⟨h1, h2⟩
    have h3 := of_decide_eq_true h2
    unfold currentTickerList at h3
    rw [List.mem_dedup] at h3
    exact ⟨h1, h3⟩
  · rintro ⟨h1, h2⟩
    refine ⟨h1, decide_eq_true ?_⟩
    unfold currentTickerList
    rw [List.mem_dedup]
    exact h2

/-- C3: the diff engine's entrants are exactly the current identifiers
absent from the prior snapshot and its exits exactly the prior
identifiers absent from the current set, so the two lists are disjoint;
and the sector distribution buckets sum to the number of current items
(each item lands in exactly one bucket, `None`/empty sectors in
`"Unknown"`). -/
theorem ranking_diff_engine (db : List RankingRow) (current : List Item) (d : Nat) :
    (∀ t, t ∈ (calcRankingChanges db current d).new_entries ↔
      (t ∈ current.map Item.ticker ∧ t ∉ prevTickerList db d)) ∧
    (∀ t, t ∈ (calcRankingChanges db current d).exited ↔
      (t ∈ prevTickerList db d ∧ t ∉ current.map Item.ticker)) ∧
    (∀ t, t ∈ (calcRankingChanges db current d).new_entries →
      t ∉ (calcRankingChanges db current d).exited) ∧
    sumCounts (calcRankingChanges db current d).sector_stats = current.length := by
  refine ⟨mem_new_entries db current d, mem_exited db current d, ?_, ?_⟩
  · intro t hnew hexit
    obtain ⟨h1, _⟩ := (mem_new_entries db current d t).mp hnew
    obtain ⟨_, h4⟩ := (mem_exited db current d t).mp hexit
    exact h4 h1
  · show sumCounts (sectorStats current) = current.length
    exact sectorStats_sum current

/-- Witness for C3 (Scenario C): with current = A, B, C and prior =
B, C, D, the entrant A is not among the exits. -/
theorem ranking_diff_engine_witness :
    "A" ∉ (calcRankingChanges dbEx currentEx 2024150).exited :=
  (ranking_diff_engine dbEx currentEx 2024150).2.2.1 "A" (by
    simp only [calcRankingChanges, sortStrings, List.mem_mergeSort]
    decide)

/-! Facts about the persistence transaction. -/

lemma runTransaction_some (steps : List (DBState → DBState)) :
    ∀ (i : Nat) (c w : DBState), runTransaction steps (some i) c w = (c, false) := by
  induction steps with
  | nil => intro i c w; rfl
  | cons s rest ih =>
    intro i c w
    cases i with
    | zero => rfl
    | succ n =>
      rw [runTransaction]
      exact ih n c (s w)

lemma runTransaction_none (steps : List (DBState → DBState)) :
    ∀ (c w : DBState),
      runTransaction steps none c w = (steps.foldl (fun s f => f s) w, true) := by
  induction steps with
  | nil => intro c w; rfl
  | cons s rest ih =>
    intro c w
    rw [runTransaction, List.foldl_cons]
    exact ih c (s w)

lemma persistSteps_foldl (d : Nat) (items : List Item) (w : DBState) :
    (persistSteps d items).foldl (fun s f => f s) w = persistAll w d items := rfl

/-- C8: if any phase of the persistence block (entity upsert, ranking
replace, price upsert) or the commit itself fails, the committed store
is left exactly as before the run and the caller receives the failed-run
shape (empty `top_100`); only a failure-free run commits, and it commits
the full effect of all three phases at once. -/
theorem persistence_rollback (db : DBState) (d : Nat) (items : List Item)
    (failAt : Option Nat) :
    ((collectPersist db d items failAt).2 = false →
      (collectPersist db d items failAt).1 = db ∧
      collectRunTop100 items (collectPersist db d items failAt).2 = []) ∧
    ((collectPersist db d items failAt).2 = true →
      (collectPersist db d items failAt).1 = persistAll db d items) ∧
    ((collectPersist db d items failAt).2 = true ↔ failAt = none) := by
  unfold collectPersist
  rcases failAt with _ | i
  · rw [runTransaction_none, persistSteps_foldl]
    refine ⟨?_, fun _ => rfl, by simp⟩
    intro hfalse
    exact absurd hfalse (by simp)
  · rw [runTransaction_some]
    refine ⟨fun _ => ⟨rfl, rfl⟩, ?_, by simp⟩
    intro htrue
    exact absurd htrue (by simp)

/-- Witness for C8: a failure injected at the ranking-replace phase of a
concrete run leaves the empty store untouched and surfaces no items. -/
theorem persistence_rollback_witness :
    (collectPersist ⟨[], [], []⟩ 2024150 [itemAaa] (some 1)).1 = ⟨[], [], []⟩ ∧
    collectRunTop100 [itemAaa] (collectPersist ⟨[], [], []⟩ 2024150 [itemAaa] (some 1)).2 = [] :=
  (persistence_rollback ⟨[], [], []⟩ 2024150 [itemAaa] (some 1)).1 (by decide)

/-! Facts about the harvester tail. -/

/-- C5 counterexample: a combined harvest of zero candidates makes
`fetch_index_tickers` return the *empty* mapping — there is no fixed
fallback set anywhere in the function. -/
theorem harvest_fallback_counterexample :
    fetchIndexTickersFinish [] = [] := by
  simp [fetchIndexTickersFinish]

/-- C5 amended: the harvester returns exactly the harvested candidates
(sorted — same count, no fallback injected), so a zero-candidate harvest
returns the empty mapping, and the pipeline caller then aborts the run
with an empty result. -/
theorem harvest_empty_no_fallback (m : List (String × String)) (rest : List Item) :
    ((fetchIndexTickersFinish m).length = m.length) ∧
    (m = [] → fetchIndexTickersFinish m = [] ∧ collectGuardTop100 m rest = []) := by
  constructor
  · exact List.length_mergeSort m
  · rintro rfl
    exact ⟨by simp [fetchIndexTickersFinish], rfl⟩

/-- Witness for the amended C5 at the concrete empty harvest. -/
theorem harvest_empty_no_fallback_witness :
    fetchIndexTickersFinish ([] : List (String × String)) = [] ∧
    collectGuardTop100 [] [itemAaa] = [] :=
  (harvest_empty_no_fallback [] [itemAaa]).2 rfl

/-! Facts about the FX-rate resolver. -/

/-- C6 counterexample: when neither FX direction resolves the rate
defaults to 1.0, but nothing records the degradation — the resolver's
entire output is the bare number, and the item built with the defaulted
rate is *identical* to the item built with a genuinely confirmed 1.0
quote, so no flag distinguishes them. -/
theorem fx_default_unflagged_counterexample :
    getUsdExchangeRate (fun _ => none) (some "JJJ") = 1 ∧
    (fun _ => none : String → Option ℚ) "JJJUSD=X" = none ∧
    provUnitFx.quote "JJJUSD=X" = some 1 ∧
    fetchSingleTickerYf provNoFx "JJ1" = fetchSingleTickerYf provUnitFx "JJ1" := by
  refine ⟨by decide, rfl, by decide, ?_⟩
  simp [fetchSingleTickerYf, provNoFx, provUnitFx, infoJJ, emptyYfInfo, pyStrOr,
    pyOptNumOr, getUsdExchangeRate, pyUpperStr, fetchRateSync, tryQuote]

/-- C6 amended: the resolver tries both pair directions and defaults to
1.0 when neither yields a truthy quote; the default carries no degraded
flag (see the counterexample: it is indistinguishable from a confirmed
1.0 rate). -/
theorem fx_default_to_one (quote : String → Option ℚ) (c : String)
    (h1 : tryQuote quote ("USD" ++ c ++ "=X") = none)
    (h2 : tryQuote quote (c ++ "USD=X") = none) :
    fetchRateSync quote c = 1 := by
  simp only [fetchRateSync, h1, h2]

/-- Witness for the amended C6 at a concrete quoteless provider. -/
theorem fx_default_to_one_witness :
    fetchRateSync (fun _ => none) "ZZZ" = 1 :=
  fx_default_to_one (fun _ => none) "ZZZ" rfl rfl

/-! Facts about the Entity Master upsert policies. -/

/-- C7 counterexample: the pipeline's own upsert
(`collect_and_update_global_top_100`, `if item.get("logo_url"):`) does
*not* write a null logo: with the `"logo_url"` key present and `None`,
the previously stored logo survives, contradicting the claim that a
payload-present field is written even when null. -/
theorem logo_preserve_on_null_counterexample :
    itemNullLogo.logo_url = some none ∧
    (updateCompanyCU companyOldLogo itemNullLogo).logo_url =
      some "https://img.example/old.png" := by
  exact ⟨rfl, rfl⟩

/-- C7 amended: preserve-on-null holds for the descriptive fields in both
upserts, and the write-even-when-null behaviour for payload-present keys
holds in `update_rankings_db`'s upsert — but the pipeline's own upsert
writes country and logo only when truthy, so a null logo this run leaves
the stale prior value. -/
theorem entity_upsert_null_policy (c : Company) (it : Item) :
    ((updateCompanyUR c it).logo_url =
      (match it.logo_url with | some v => v | none => c.logo_url)) ∧
    (it.logo_url = some none → (updateCompanyCU c it).logo_url = c.logo_url) ∧
    (it.sector = none →
      (updateCompanyCU c it).sector = c.sector ∧ (updateCompanyUR c it).sector = c.sector) ∧
    (it.country = none →
      (updateCompanyCU c it).country = c.country ∧ (updateCompanyUR c it).country = c.country) := by
  refine ⟨rfl, ?_, ?_, ?_⟩
  · intro h
    simp [updateCompanyCU, h]
  · intro h
    constructor
    · simp [updateCompanyCU, pyOptStrOr, h]
    · simp [updateCompanyUR, pyOptStrOr, h]
  · intro h
    constructor
    · simp [updateCompanyCU, h]
    · simp [updateCompanyUR, h]

/-- Witness for the amended C7 at the concrete stale-logo company. -/
theorem entity_upsert_null_policy_witness :
    (updateCompanyCU companyOldLogo itemNullLogo).logo_url = companyOldLogo.logo_url :=
  (entity_upsert_null_policy companyOldLogo itemNullLogo).2.1 rfl

/-- Witness for the amended C4 at the concrete colon-bearing symbol. -/
theorem processRow_none_iff_witness :
    [78, 89, 83, 69, 58, 73, 66, 77] =
      applyCountrySuffix (cleanedSymbol [78, 89, 83, 69, 58, 73, 66, 77]) none :=
  (processRow_none_iff [78, 89, 83, 69, 58, 73, 66, 77] none).2
    [78, 89, 83, 69, 58, 73, 66, 77] (by decide)

end CapFlow
